import Mathlib

/-!
Verification of the Silly-Tavern-Flux-Bridge provider-fallback image bridge
(`flux_lora_bridge.py`) against its natural-language specification.

The Python source is shallowly embedded: byte strings become `List Nat`,
Python `str` values that need structural reasoning become `List Char`,
exceptions become `Except`, network calls and the Runware upload endpoint
become explicit oracle functions, and the loop state of the orchestrator and
of the LoRA-resolution cache is threaded explicitly.
-/

namespace FluxBridge

/-! ## Generic helpers -/

/-- `startsWithL p s` tests whether the list `p` is an initial segment of `s`
(Python `str.startswith`). -/
def startsWithL : List Char → List Char → Bool
  | [], _ => true
  | _ :: _, [] => false
  | p :: ps, c :: cs => p == c && startsWithL ps cs

/-- ASCII whitespace recognized by Python `str.strip()`. -/
def pyWhitespace (c : Char) : Bool :=
  c == ' ' || c == '\t' || c == '\n' || c == '\r' || c == '\x0b' || c == '\x0c'

/-- Python `str.strip()`: drop whitespace from both ends. -/
def pyStrip (s : List Char) : List Char :=
  ((s.dropWhile pyWhitespace).reverse.dropWhile pyWhitespace).reverse

/-- First `some` element of a list of options (Python-style "first hit wins"
scans). -/
def firstSome {α : Type} : List (Option α) → Option α
  | [] => none
  | some a :: _ => some a
  | none :: rest => firstSome rest

/-- Association-list lookup, first binding wins (Python `dict` access on the
JSON-decoded mapping file). -/
def lookupA {α β : Type} [BEq α] : List (α × β) → α → Option β
  | [], _ => none
  | (k, v) :: rest, k' => if k == k' then some v else lookupA rest k'

/-- Association-list update: replace the binding if the key exists, otherwise
append (Python `mapping[key] = value`). -/
def insertA {α β : Type} [BEq α] (m : List (α × β)) (k : α) (v : β) :
    List (α × β) :=
  if (lookupA m k).isSome then
    m.map (fun p => if p.1 == k then (k, v) else p)
  else
    m ++ [(k, v)]

/-- Lower-case hex digit for a value below 16 (`bytes.hex()`). -/
def hexDigit (n : Nat) : Char :=
  if n < 10 then Char.ofNat (48 + n) else Char.ofNat (87 + n)

/-- Two lower-case hex digits of one byte (`bytes.hex()`). -/
def byteHexChars (b : Nat) : List Char :=
  [hexDigit (b / 16 % 16), hexDigit (b % 16)]

/-- Python `bytes.hex()`: lower-case hex string of a byte sequence. -/
def bytesHex (bs : List Nat) : String :=
  String.mk ((bs.map byteHexChars).flatten)

/-! ## Image magic-number validator

Embeds `_validate_image_bytes` (src/flux_lora_bridge.py lines 770-778):

```python
def _validate_image_bytes(data: bytes, provider_name: str) -> None:
    if len(data) < 4:
        raise ValueError(f"[{provider_name}] Image data too small ({len(data)} bytes)")
    if not (data[:3] == b'\xff\xd8\xff' or       # JPEG
            data[:4] == b'\x89PNG' or              # PNG
            data[:4] == b'RIFF' or                 # WEBP
            data[:4] == b'GIF8'):                  # GIF
        raise ValueError(f"[{provider_name}] Downloaded data is not a valid image (first bytes: {data[:16].hex()})")
```
-/

/-- Error message of the too-small branch. -/
def tooSmallMsg (provider : String) (n : Nat) : String :=
  "[" ++ provider ++ "] Image data too small (" ++ Nat.repr n ++ " bytes)"

/-- Error message of the bad-magic branch. -/
def notValidImageMsg (provider : String) (data : List Nat) : String :=
  "[" ++ provider ++ "] Downloaded data is not a valid image (first bytes: "
    ++ bytesHex (data.take 16) ++ ")"

/-- `_validate_image_bytes`: raise (return `.error`) unless the data starts
with one of the four recognized prefixes.  Note that the source checks only
the four bytes `RIFF` for WEBP, not the `WEBP` tag at offset 8. -/
def validate_image_bytes (data : List Nat) (provider : String) :
    Except String Unit :=
  if data.length < 4 then
    .error (tooSmallMsg provider data.length)
  else if data.take 3 = [0xff, 0xd8, 0xff]
      ∨ data.take 4 = [0x89, 0x50, 0x4e, 0x47]
      ∨ data.take 4 = [0x52, 0x49, 0x46, 0x46]
      ∨ data.take 4 = [0x47, 0x49, 0x46, 0x38] then
    .ok ()
  else
    .error (notValidImageMsg provider data)

/-- The acceptance set claimed by the specification, taken literally: the data
begins with JPEG `FFD8FF`, PNG `89504E47`, WEBP `RIFF....WEBP` (four wildcard
bytes, then the `WEBP` tag at offset 8), or GIF `47494638`. -/
def specMagicAccepts (data : List Nat) : Prop :=
  data.take 3 = [0xff, 0xd8, 0xff]
  ∨ data.take 4 = [0x89, 0x50, 0x4e, 0x47]
  ∨ (data.take 4 = [0x52, 0x49, 0x46, 0x46]
      ∧ ((data.drop 8).take 4 = [0x57, 0x45, 0x42, 0x50]))
  ∨ data.take 4 = [0x47, 0x49, 0x46, 0x38]

instance (data : List Nat) : Decidable (specMagicAccepts data) := by
  unfold specMagicAccepts; infer_instance

/-! ## JSON-decoded payloads and the image-candidate extractor

Embeds `_extract_image_candidate` (lines 716-746).  A Python JSON-decoded
value is a `None`, bool, number, string, bytes, list, or dict; dict iteration
order is insertion order, so a dict is a list of key-value pairs. -/

/-- A JSON-decoded provider payload value. -/
inductive Jx : Type where
  | null : Jx
  | bool : Bool → Jx
  | num : Int → Jx
  | str : List Char → Jx
  | bytes : List Nat → Jx
  | arr : List Jx → Jx
  | obj : List (String × Jx) → Jx
deriving Inhabited

/-- An extracted image candidate: the extractor returns raw bytes or a string
(URL / base64), or `None`. -/
inductive Cand : Type where
  | bytes : List Nat → Cand
  | str : List Char → Cand
deriving DecidableEq

/-- Python truthiness of a JSON-decoded value (`if payload[key]:`). -/
def truthy : Jx → Bool
  | .null => false
  | .bool b => b
  | .num n => n != 0
  | .str s => !s.isEmpty
  | .bytes b => !b.isEmpty
  | .arr xs => !xs.isEmpty
  | .obj fs => !fs.isEmpty

/-- `payload is not None`. -/
def notNull : Jx → Bool
  | .null => false
  | _ => true

/-- Direct-value keys, in the exact priority order of the source. -/
def directKeys : List String :=
  ["imageURL", "image_url", "imageUrl", "image", "url", "b64_json", "base64"]

/-- Container keys, in the exact priority order of the source. -/
def containerKeys : List String :=
  ["data", "output", "outputs", "images", "result", "results"]

/-- First binding of a key in a dict (`key in payload` + `payload[key]`). -/
def lookupField (k : String) : List (String × Jx) → Option Jx
  | [] => none
  | (k', v) :: rest => if k' = k then some v else lookupField k rest

/-- Lookup in an annotated field list. -/
def lookupAnn (k : String) :
    List (String × Jx × Option Cand) → Option (Jx × Option Cand)
  | [] => none
  | (k', v, c) :: rest => if k' = k then some (v, c) else lookupAnn k rest

/-- The direct-key loop: `if key in payload and payload[key]: ...`. -/
def phaseDirect (keys : List String)
    (ann : List (String × Jx × Option Cand)) : Option Cand :=
  match keys with
  | [] => none
  | k :: ks =>
    match lookupAnn k ann with
    | some (v, c) =>
      if truthy v then
        match c with
        | some c' => some c'
        | none => phaseDirect ks ann
      else phaseDirect ks ann
    | none => phaseDirect ks ann

/-- The container-key loop: `if key in payload and payload[key] is not None`.
-/
def phaseContainer (keys : List String)
    (ann : List (String × Jx × Option Cand)) : Option Cand :=
  match keys with
  | [] => none
  | k :: ks =>
    match lookupAnn k ann with
    | some (v, c) =>
      if notNull v then
        match c with
        | some c' => some c'
        | none => phaseContainer ks ann
      else phaseContainer ks ann
    | none => phaseContainer ks ann

/-- The final loop over `payload.values()`. -/
def phaseAll : List (String × Jx × Option Cand) → Option Cand
  | [] => none
  | (_, _, c) :: rest =>
    match c with
    | some c' => some c'
    | none => phaseAll rest

mutual

/-- `_extract_image_candidate`: recursively locate an image candidate in an
arbitrary payload.  `None`/bool/number yield nothing; strings and bytes are
returned as themselves; lists are scanned in order; dicts try the direct-value
keys first (skipping falsy values), then the container keys (skipping `None`
values), then every value in insertion order. -/
def extract_image_candidate : Jx → Option Cand
  | .null => none
  | .bool _ => none
  | .num _ => none
  | .str s => some (.str s)
  | .bytes b => some (.bytes b)
  | .arr xs => extractFromList xs
  | .obj fs =>
    let ann := annotateFields fs
    match phaseDirect directKeys ann with
    | some c => some c
    | none =>
      match phaseContainer containerKeys ann with
      | some c => some c
      | none => phaseAll ann

/-- Pair every dict value with its extraction result (the recursive calls the
source makes lazily, computed up front so the phase loops are not recursive).
-/
def annotateFields : List (String × Jx) → List (String × Jx × Option Cand)
  | [] => []
  | (k, v) :: rest => (k, v, extract_image_candidate v) :: annotateFields rest

/-- The list loop of the source: first element yielding a candidate wins. -/
def extractFromList : List Jx → Option Cand
  | [] => none
  | x :: rest =>
    match extract_image_candidate x with
    | some c => some c
    | none => extractFromList rest

end

/-! ## Base64 decoding and image-byte resolution

Embeds `_strip_data_uri_prefix`, `_try_decode_base64` and
`_resolve_image_bytes_from_payload` (lines 698-767). -/

/-- Value of a base64 alphabet character. -/
def b64Val (c : Char) : Option Nat :=
  if 'A' ≤ c ∧ c ≤ 'Z' then some (c.toNat - 65)
  else if 'a' ≤ c ∧ c ≤ 'z' then some (c.toNat - 97 + 26)
  else if '0' ≤ c ∧ c ≤ '9' then some (c.toNat - 48 + 52)
  else if c = '+' then some 62
  else if c = '/' then some 63
  else none

/-- Strict base64 decoding (`base64.b64decode(candidate, validate=True)`):
the input must be groups of four alphabet characters, with `=` padding only
at the very end; anything else fails. -/
def b64DecodeStrict : List Char → Option (List Nat)
  | [] => some []
  | a :: b :: c :: d :: rest =>
    match b64Val a, b64Val b with
    | some va, some vb =>
      if c = '=' ∧ d = '=' ∧ rest = [] then
        some [va * 4 + vb / 16]
      else
        match b64Val c with
        | some vc =>
          if d = '=' ∧ rest = [] then
            some [va * 4 + vb / 16, vb % 16 * 16 + vc / 4]
          else
            match b64Val d with
            | some vd =>
              (b64DecodeStrict rest).map
                (fun t => (va * 4 + vb / 16) :: (vb % 16 * 16 + vc / 4)
                  :: (vc % 4 * 64 + vd) :: t)
            | none => none
        | none => none
    | _, _ => none
  | _ => none

/-- `_strip_data_uri_prefix`: drop a `data:...,` header, keeping everything
after the first comma. -/
def strip_data_uri (s : List Char) : List Char :=
  if startsWithL ("data:".toList) s ∧ s.contains ',' then
    ((s.dropWhile (fun c => c ≠ ',')).drop 1)
  else s

/-- `_try_decode_base64`: strip a data-URI header, trim, refuse strings that
still look like URLs, then decode strictly. -/
def try_decode_base64 (s : List Char) : Option (List Nat) :=
  let candidate := pyStrip (strip_data_uri s)
  if startsWithL ("http://".toList) candidate
      ∨ startsWithL ("https://".toList) candidate then
    none
  else
    b64DecodeStrict candidate

/-- An HTTP response, as the model of `httpx` GET. -/
structure HttpResp : Type where
  status : Nat
  body : List Nat
deriving DecidableEq

/-- `httpx.Response.raise_for_status` passes exactly on 2xx. -/
def isSuccessStatus (s : Nat) : Bool := 200 ≤ s && s ≤ 299

/-- Structured resolution errors (the `ValueError`s and the propagated
`HTTPStatusError` of `_resolve_image_bytes_from_payload`). -/
inductive RErr : Type where
  | noCandidate : RErr
  | httpStatus : Nat → RErr
  | unsupportedFormat : RErr
deriving DecidableEq

/-- `_resolve_image_bytes_from_payload`: extract a candidate; bytes pass
through; an HTTP(S) URL is fetched with `raise_for_status` checked before the
body is used; otherwise strict base64; otherwise an unsupported-format error.
`http` is the network oracle mapping a URL to its GET response. -/
def resolve_image_bytes_from_payload (payload : Jx)
    (http : List Char → HttpResp) : Except RErr (List Nat) :=
  match extract_image_candidate payload with
  | none => .error .noCandidate
  | some (.bytes b) => .ok b
  | some (.str s) =>
    if startsWithL ("http://".toList) s ∨ startsWithL ("https://".toList) s then
      let r := http s
      if isSuccessStatus r.status then .ok r.body
      else .error (.httpStatus r.status)
    else
      match try_decode_base64 s with
      | some d => .ok d
      | none => .error .unsupportedFormat

/-- The URL-download tail of `TogetherAIClient.generate` (lines 1267-1273):
GET the image URL, `raise_for_status`, and only then return the content. -/
def together_download_image (url : List Char) (http : List Char → HttpResp) :
    Except RErr (List Nat) :=
  let r := http url
  if isSuccessStatus r.status then .ok r.body
  else .error (.httpStatus r.status)

/-! ## LoRA data model, role caps, provider pruning and list building

Embeds `Config.ROLE_CAPS` (lines 279-285), `LoRAManager.apply_role_caps`
(lines 579-604), `LoRAManager.provider_based_lora_url_pruning` (lines 513-524)
and `LoRAManager.build_lora_list` (lines 606-630). -/

/-- The fields of one entry of the LoRA dictionary that the claims touch.
`category` and `rank` are optional in the dictionary. -/
structure LoraData : Type where
  url : List Char
  weight : Rat
  name : String
  category : Option String
  rank : Option Int
deriving DecidableEq

/-- A matched LoRA: dictionary id plus its data. -/
structure MLora : Type where
  id : String
  data : LoraData
deriving DecidableEq

/-- `Config.ROLE_CAPS`. -/
def roleCaps : List (String × Nat) :=
  [("character", 6), ("nsfw", 4), ("expression", 2), ("general", 2),
   ("misc", 1)]

/-- `caps.get(role, caps.get("misc", 999))`: the cap of a role, falling back
to the `misc` cap for unlisted roles, and to 999 only if `misc` itself were
absent. -/
def capOf (role : String) : Nat :=
  match lookupA roleCaps role with
  | some n => n
  | none =>
    match lookupA roleCaps "misc" with
    | some m => m
    | none => 999

/-- `(item.get("data", {}) or {}).get("category", "misc")`. -/
def roleOf (m : MLora) : String := m.data.category.getD "misc"

/-- `x["data"].get("rank", 999)`, the sort key used upstream of the caps. -/
def rankOf (m : MLora) : Int := m.data.rank.getD 999

/-- The loop of `apply_role_caps`, with the per-role running counts made
explicit (`counts.setdefault(role, 0)` means a missing count reads as 0). -/
def applyRoleCapsGo (counts : String → Nat) : List MLora → List MLora
  | [] => []
  | x :: rest =>
    let role := roleOf x
    let cap := capOf role
    if counts role ≥ cap then applyRoleCapsGo counts rest
    else
      x :: applyRoleCapsGo
        (fun r => if r = role then counts role + 1 else counts r) rest

/-- `LoRAManager.apply_role_caps`.  (The `if not caps` early return of the
source is dead under the shipped non-empty `ROLE_CAPS`.) -/
def apply_role_caps (l : List MLora) : List MLora :=
  applyRoleCapsGo (fun _ => 0) l

/-- The walk as the specification words it: an entry is kept exactly when the
number of already-kept entries of its role is below the role's cap. -/
def specRoleCapsGo (kept : List MLora) : List MLora → List MLora
  | [] => []
  | x :: rest =>
    if (kept.filter (fun y => roleOf y = roleOf x)).length < capOf (roleOf x)
    then x :: specRoleCapsGo (kept ++ [x]) rest
    else specRoleCapsGo kept rest

/-- Spec-worded role-cap walk, to be compared with `apply_role_caps`. -/
def specRoleCapsWalk (l : List MLora) : List MLora := specRoleCapsGo [] l

/-- Entries of a given role, in order. -/
def filterRole (r : String) (l : List MLora) : List MLora :=
  l.filter (fun m => roleOf m = r)

/-- The source string the pruning step inspects:
`lora_data.get('data', {}).get('url', '').strip()`. -/
def pruneSrc (m : MLora) : List Char := pyStrip m.data.url

/-- `LoRAManager.provider_based_lora_url_pruning`: drop an entry when its
source contains both a colon and an at-sign and the target provider is not
`runware`; keep everything else in order. -/
def provider_based_lora_url_pruning (l : List MLora) (provider : String) :
    List MLora :=
  match l with
  | [] => []
  | x :: rest =>
    if (pruneSrc x).contains ':' ∧ (pruneSrc x).contains '@'
        ∧ provider ≠ "runware" then
      provider_based_lora_url_pruning rest provider
    else
      x :: provider_based_lora_url_pruning rest provider

/-- The inline-spec shape named by the specification, taken literally:
`<token>:<token>@<token>` with non-empty tokens. -/
def specInlineSpecShape (s : List Char) : Prop :=
  ∃ t1 t2 t3 : List Char,
    t1 ≠ [] ∧ t2 ≠ [] ∧ t3 ≠ [] ∧ s = t1 ++ ':' :: t2 ++ '@' :: t3

/-- The entry shape `build_lora_list` hands to the provider clients. -/
structure BuiltLora : Type where
  url : List Char
  weight : Rat
  name : String
  id : String
deriving DecidableEq

/-- `LoRAManager.build_lora_list`: stop as soon as `max_loras` entries have
been collected. -/
def build_lora_list : List MLora → Nat → List BuiltLora
  | _, 0 => []
  | [], _ + 1 => []
  | m :: rest, k + 1 =>
    ⟨m.data.url, m.data.weight, m.data.name, m.id⟩ :: build_lora_list rest k

/-! ## The provider-fallback orchestrator

Embeds the generation loop of the `/sdapi/v1/txt2img` endpoint (`txt2img`,
lines 1551-1632) together with `ProviderState` (lines 456-488).  Provider
clients are abstracted into a `gen` oracle; an attempt is the client call
followed by `_validate_image_bytes`, with any raised error caught and stored
as `last_error`. -/

/-- `ProviderState.providers`: the fixed provider order. -/
def providerOrder : List String :=
  ["runware", "hfzerogpu", "wavespeed", "fal", "together", "pixeldojo"]

/-- `ProviderState.get_max_loras`, with the source-default configuration
values (`MAXLORAS_*`). -/
def maxLorasFor (provider : String) : Nat :=
  if provider = "runware" then 12
  else if provider = "hfzerogpu" then 10
  else if provider = "pixeldojo" then 1
  else if provider = "wavespeed" then 4
  else if provider = "fal" then 3
  else if provider = "together" then 2
  else 15

/-- The parameters dict built once per request and passed to every provider
attempt. -/
structure GenParams : Type where
  steps : Int
  cfg_scale : Rat
  width : Int
  height : Int
  seed : Int
deriving DecidableEq

/-- A provider-client oracle: the behavior of `client.generate` for each
provider, as a function of the provider name, the shared params and the
per-provider LoRA list.  An `.error` models a raised exception. -/
def GenOracle : Type := String → GenParams → List BuiltLora → Except String (List Nat)

/-- The LoRA list built for one provider attempt: provider pruning followed
by truncation to the provider's maximum. -/
def loraListFor (matched : List MLora) (provider : String) : List BuiltLora :=
  build_lora_list (provider_based_lora_url_pruning matched provider)
    (maxLorasFor provider)

/-- One provider attempt of the loop body: invoke the client, then validate
the magic number; either failure is caught and becomes the attempt's error. -/
def attemptOutcome (gen : GenOracle) (matched : List MLora)
    (params : GenParams) (provider : String) : Except String (List Nat) :=
  match gen provider params (loraListFor matched provider) with
  | .error e => .error e
  | .ok bytes =>
    match validate_image_bytes bytes provider with
    | .error e => .error e
    | .ok _ => .ok bytes

/-- One record of the attempt trace: which provider was invoked, with which
params and how many LoRAs. -/
structure AttemptLog : Type where
  provider : String
  params : GenParams
  lorasUsed : Nat
deriving DecidableEq

/-- The success payload of the endpoint that the claims inspect: provenance
(`info_dict["provider"]`, `info_dict["loras_used"]`, `info_dict["seed"]`) and
the returned image bytes. -/
structure SuccessInfo : Type where
  provider : String
  lorasUsed : Nat
  seed : Int
  image : List Nat
deriving DecidableEq

/-- The provider loop of `txt2img`: walk the provider list once, short-circuit
on the first attempt that passes validation, remember the last error, and on
exhaustion raise HTTP 500 with the aggregate message.  Returns the trace of
the attempts actually made together with the endpoint outcome. -/
def tryProviders (gen : GenOracle) (matched : List MLora)
    (params : GenParams) :
    List String → Option String → List AttemptLog × Except String SuccessInfo
  | [], lastError =>
    ([], .error ("All providers failed. Last error: "
      ++ (lastError.getD "None")))
  | p :: rest, _ =>
    let log : AttemptLog := ⟨p, params, (loraListFor matched p).length⟩
    match attemptOutcome gen matched params p with
    | .ok bytes =>
      ([log], .ok ⟨p, (loraListFor matched p).length, params.seed, bytes⟩)
    | .error e =>
      let r := tryProviders gen matched params rest (some e)
      (log :: r.1, r.2)

/-- The generation step of `txt2img`: `seed_used` is drawn once before the
loop (`request.seed if request.seed != -1 else random.randint(0, 2**31-1)`),
the params dict is built once, and the provider loop runs over the fixed
order.  `randDraw` models the single `random.randint(0, 2**31 - 1)` draw. -/
def txt2imgGenerate (gen : GenOracle) (matched : List MLora)
    (reqSteps : Int) (reqCfg : Rat) (reqWidth reqHeight : Int)
    (reqSeed : Int) (randDraw : Int) :
    List AttemptLog × Except String SuccessInfo :=
  let seedUsed := if reqSeed ≠ -1 then reqSeed else randDraw
  let params : GenParams := ⟨reqSteps, reqCfg, reqWidth, reqHeight, seedUsed⟩
  tryProviders gen matched params providerOrder none

/-- The seed actually used, as `txt2imgGenerate` computes it. -/
def seedUsedOf (reqSeed randDraw : Int) : Int :=
  if reqSeed ≠ -1 then reqSeed else randDraw

/-! ## The Runware LoRA resolution cache

Embeds `resolve_runware_loras` (lines 110-182) and the single
`save_runware_lora_mapping` call guarded by `updated` (lines 175-180).
The upload endpoint (`upload_lora_to_runware`) is an oracle; the persisted
mapping file is the association list threaded through the call, and file
writes are returned as an explicit trace. -/

/-- One input LoRA descriptor: the dict keys `lora` / `url` / `id` and
`weight` that the source reads. -/
structure RLEntry : Type where
  lora : Option (List Char)
  url : Option (List Char)
  id : Option (List Char)
  weight : Option Rat
deriving DecidableEq

/-- Python `a or b` on optional strings: first truthy value, else the right
operand (the empty string is falsy). -/
def pyOrStr (a b : Option (List Char)) : Option (List Char) :=
  match a with
  | some s => if s = [] then b else some s
  | none => b

/-- `l.get("lora") or l.get("url") or l.get("id")`. -/
def pickSrc (e : RLEntry) : Option (List Char) :=
  pyOrStr e.lora (pyOrStr e.url e.id)

/-- The provider-prefixed pass-through test of branch 1. -/
def hasProviderPrefixStr (s : List Char) : Bool :=
  startsWithL ("runware:".toList) s || startsWithL ("civitai:".toList) s
    || startsWithL ("hfk:".toList) s || startsWithL ("deathwalker:".toList) s

/-- The upload oracle: `upload_lora_to_runware` either returns an AIR id or
raises. -/
def UploadOracle : Type := List Char → Except String (List Char)

/-- The outcome of one `resolve_runware_loras` call: the resolved
`{lora, weight}` pairs, the in-memory mapping, the `updated` flag, and the
trace of upload invocations. -/
structure ResolveOut : Type where
  resolved : List (List Char × Rat)
  mapping : List (List Char × List Char)
  updated : Bool
  uploads : List (List Char)
deriving DecidableEq

/-- The per-entry loop of `resolve_runware_loras`, threading the mapping. -/
def resolveGo (upload : UploadOracle) :
    List (List Char × List Char) → List RLEntry → ResolveOut
  | mapping, [] => ⟨[], mapping, false, []⟩
  | mapping, e :: rest =>
    let step : List (List Char × Rat) × List (List Char × List Char)
        × Bool × List (List Char) :=
      match pickSrc e with
      | none => ([], mapping, false, [])
      | some s0 =>
        let s := pyStrip s0
        let w := e.weight.getD 1
        if hasProviderPrefixStr s then ([(s, w)], mapping, false, [])
        else if s.contains ':' ∧ s.contains '@' then
          ([(s, w)], mapping, false, [])
        else if startsWithL ("http://".toList) s
            ∨ startsWithL ("https://".toList) s then
          match lookupA mapping s with
          | some rid => ([(rid, w)], mapping, false, [])
          | none =>
            match upload s with
            | .ok rid => ([(rid, w)], insertA mapping s rid, true, [s])
            | .error _ => ([], mapping, false, [s])
        else
          match upload s with
          | .ok rid => ([(rid, w)], insertA mapping s rid, true, [s])
          | .error _ => ([], mapping, false, [s])
    let r := resolveGo upload step.2.1 rest
    ⟨step.1 ++ r.resolved, r.mapping, step.2.2.1 || r.updated,
      step.2.2.2 ++ r.uploads⟩

/-- `resolve_runware_loras` plus its trailing `if updated: save(...)`: the
second component is the trace of file writes (each element one full rewrite
of the persisted mapping). -/
def resolve_runware_loras (loras : List RLEntry)
    (mapping : List (List Char × List Char)) (upload : UploadOracle) :
    ResolveOut × List (List (List Char × List Char)) :=
  let r := resolveGo upload mapping loras
  (r, if r.updated then [r.mapping] else [])

/-! ## Spec-side definitions and concrete sample inputs -/

/-- The object search as the claim words it: the direct-value keys tried
first in their exact order, then the container keys, then every value in
insertion order, first candidate wins. -/
def specObjSearch (fs : List (String × Jx)) : Option Cand :=
  match firstSome (directKeys.map (fun k =>
      match lookupField k fs with
      | some v => if truthy v then extract_image_candidate v else none
      | none => none)) with
  | some c => some c
  | none =>
    match firstSome (containerKeys.map (fun k =>
        match lookupField k fs with
        | some v => if notNull v then extract_image_candidate v else none
        | none => none)) with
    | some c => some c
    | none => firstSome (fs.map (fun kv => extract_image_candidate kv.2))

/-- The Boolean drop condition of the pruning loop. -/
def pruneDropB (provider : String) (m : MLora) : Bool :=
  (pruneSrc m).contains ':' && (pruneSrc m).contains '@'
    && provider != "runware"

/-- The error text the orchestrator stores after a failed attempt
(`last_error = str(e)`); on a success it is unused. -/
def errTextOf : Except String (List Nat) → String
  | .error e => e
  | .ok _ => ""

/-- A matched LoRA with the given id, role and rank (sample input builder).
-/
def mkLora (idn : String) (role : String) (rk : Int) : MLora :=
  ⟨idn, ⟨[], 1, idn, some role, some rk⟩⟩

/-- A matched LoRA whose dictionary url is the given source string (sample
input builder). -/
def mkUrlLora (u : List Char) : MLora :=
  ⟨"x", ⟨u, 1, "x", none, none⟩⟩

/-- A LoRA descriptor carrying an HTTP(S) source in its `lora` field. -/
def httpEntry (u : List Char) (w : Rat) : RLEntry := ⟨some u, none, none, some w⟩

/-- Sample provider oracle: the first two providers raise, the third returns
a PNG; used to exercise the orchestrator theorems. -/
def sampleGen : GenOracle := fun p _ _ =>
  if p = "wavespeed" then .ok [0x89, 0x50, 0x4e, 0x47, 13, 10, 26, 10]
  else .error ("fail " ++ p)

/-- Sample request parameters. -/
def sampleParams : GenParams := ⟨40, 4, 1024, 1024, 42⟩

/-- Sample HTTP(S) LoRA source URL. -/
def sampleUrl : List Char := "https://example.com/a.safetensors".toList

/-- Sample AIR identifier returned by the upload oracle. -/
def sampleAir : List Char := "deathwalker:abcdef123456@1".toList

/-- Sample upload oracle succeeding exactly on `sampleUrl`. -/
def sampleUpload : UploadOracle := fun s =>
  if s = sampleUrl then .ok sampleAir else .error "upload failed"

/-- An ambiguous (non-URL, non-spec) LoRA source string. -/
def ambSrc : List Char := "mysterylora".toList

/-- The identifier the upload endpoint derives for `ambSrc` (the AIR id is a
deterministic hash of the source, so re-uploading yields the same id). -/
def ambId : List Char := "deathwalker:0a1b2c3d4e5f@1".toList

/-- Upload oracle succeeding exactly on `ambSrc`. -/
def ambUpload : UploadOracle := fun s =>
  if s = ambSrc then .ok ambId else .error "upload failed"

/-- A persisted mapping that already contains `ambSrc` (left over from an
earlier request). -/
def ambMapping : List (List Char × List Char) := [(ambSrc, ambId)]

/-- A request containing only the ambiguous source. -/
def ambEntry : RLEntry := ⟨some ambSrc, none, none, none⟩

/-! # Theorems -/

/-! ## C1 — the image validator's acceptance set -/

/-- C1 (counterexample).  The claim states the validator accepts exactly the
four magic numbers, with WEBP given as `RIFF....WEBP`.  The source, however,
checks only the four bytes `RIFF`: a `RIFF` container without the `WEBP` tag
at offset 8 is accepted even though it matches none of the four claimed
magic numbers. -/
theorem C1_counterexample :
    validate_image_bytes [0x52, 0x49, 0x46, 0x46, 0, 0, 0, 0, 0, 0, 0, 0]
      "Runware" = .ok ()
    ∧ ¬ specMagicAccepts [0x52, 0x49, 0x46, 0x46, 0, 0, 0, 0, 0, 0, 0, 0] := by
  constructor
  · rfl
  · decide

/-- C1 (amended).  The validator accepts exactly the byte strings of length
at least 4 whose first bytes are `FFD8FF` (JPEG), `89504E47` (PNG), `52494646`
(`RIFF`, the WEBP container — the `WEBP` tag at offset 8 is not checked), or
`47494638` (GIF); any other byte string of length at least 4 (for example an
HTML document) is rejected with the explicit "not a valid image" error. -/
theorem C1_amended (data : List Nat) (p : String) :
    (validate_image_bytes data p = .ok () ↔
      4 ≤ data.length ∧
        (data.take 3 = [0xff, 0xd8, 0xff]
          ∨ data.take 4 = [0x89, 0x50, 0x4e, 0x47]
          ∨ data.take 4 = [0x52, 0x49, 0x46, 0x46]
          ∨ data.take 4 = [0x47, 0x49, 0x46, 0x38]))
    ∧ (4 ≤ data.length →
        ¬(data.take 3 = [0xff, 0xd8, 0xff]
          ∨ data.take 4 = [0x89, 0x50, 0x4e, 0x47]
          ∨ data.take 4 = [0x52, 0x49, 0x46, 0x46]
          ∨ data.take 4 = [0x47, 0x49, 0x46, 0x38]) →
        validate_image_bytes data p = .error (notValidImageMsg p data)) := by
  unfold validate_image_bytes
  by_cases hlen : data.length < 4
  · simp only [if_pos hlen]
    constructor
    · constructor
      · intro h; exact absurd h (by simp)
      · intro ⟨h4, _⟩; omega
    · intro h4; omega
  · simp only [if_neg hlen]
    by_cases hmag : data.take 3 = [0xff, 0xd8, 0xff]
        ∨ data.take 4 = [0x89, 0x50, 0x4e, 0x47]
        ∨ data.take 4 = [0x52, 0x49, 0x46, 0x46]
        ∨ data.take 4 = [0x47, 0x49, 0x46, 0x38]
    · simp only [if_pos hmag]
      exact ⟨⟨fun _ => ⟨by omega, hmag⟩, fun _ => trivial⟩,
        fun _ h => absurd hmag h⟩
    · simp only [if_neg hmag]
      constructor
      · constructor
        · intro h; exact absurd h (by simp)
        · intro ⟨_, h⟩; exact absurd h hmag
      · intro _ _; trivial

/-- C1 (witness for the amended theorem): an HTML document body is rejected
with the explicit "not a valid image" error. -/
theorem C1_amended_witness :
    (4 ≤ ([0x3c, 0x68, 0x74, 0x6d, 0x6c, 0x3e] : List Nat).length
      ∧ ¬(([0x3c, 0x68, 0x74, 0x6d, 0x6c, 0x3e] : List Nat).take 3
            = [0xff, 0xd8, 0xff]
          ∨ ([0x3c, 0x68, 0x74, 0x6d, 0x6c, 0x3e] : List Nat).take 4
            = [0x89, 0x50, 0x4e, 0x47]
          ∨ ([0x3c, 0x68, 0x74, 0x6d, 0x6c, 0x3e] : List Nat).take 4
            = [0x52, 0x49, 0x46, 0x46]
          ∨ ([0x3c, 0x68, 0x74, 0x6d, 0x6c, 0x3e] : List Nat).take 4
            = [0x47, 0x49, 0x46, 0x38]))
    ∧ validate_image_bytes [0x3c, 0x68, 0x74, 0x6d, 0x6c, 0x3e] "Together"
        = .error
          "[Together] Downloaded data is not a valid image (first bytes: 3c68746d6c3e)" := by
  refine ⟨⟨by decide, by decide⟩, ?_⟩
  have h := (C1_amended [0x3c, 0x68, 0x74, 0x6d, 0x6c, 0x3e] "Together").2
    (by decide) (by decide)
  rw [h]; rfl

/-! ## C10 — byte strings shorter than 4 bytes are always rejected -/

/-- C10.  Every byte string shorter than 4 bytes is rejected with the
explicit "Image data too small" error, so no provider attempt can succeed
with fewer than 4 bytes of image data. -/
theorem C10_too_small (data : List Nat) (p : String)
    (h : data.length < 4) :
    validate_image_bytes data p = .error (tooSmallMsg p data.length) := by
  unfold validate_image_bytes
  simp only [if_pos h]

/-- C10 (witness): the bare 3-byte JPEG magic prefix `FFD8FF` is rejected. -/
theorem C10_too_small_witness :
    ([0xff, 0xd8, 0xff] : List Nat).length < 4
    ∧ validate_image_bytes [0xff, 0xd8, 0xff] "Runware"
        = .error "[Runware] Image data too small (3 bytes)" := by
  refine ⟨by decide, ?_⟩
  have h := C10_too_small [0xff, 0xd8, 0xff] "Runware" (by decide)
  rw [h]; rfl

/-! ## C3 — role caps -/

/-- The code walk and the spec-worded walk agree, given matching running
counts. -/
theorem applyRoleCapsGo_eq_specGo (l : List MLora) :
    ∀ (kept : List MLora) (counts : String → Nat),
    (∀ r, (kept.filter (fun y => roleOf y = r)).length = counts r) →
    applyRoleCapsGo counts l = specRoleCapsGo kept l := by
  induction l with
  | nil => intro kept counts _; rfl
  | cons x rest ih =>
    intro kept counts h
    by_cases hc : counts (roleOf x) ≥ capOf (roleOf x)
    · rw [applyRoleCapsGo, if_pos hc, specRoleCapsGo, if_neg (by rw [h]; omega)]
      exact ih kept counts h
    · rw [applyRoleCapsGo, if_neg hc, specRoleCapsGo, if_pos (by rw [h]; omega)]
      congr 1
      apply ih
      intro r
      rw [List.filter_append, List.length_append]
      by_cases hr : roleOf x = r
      · subst hr
        simp only [List.filter_cons, decide_eq_true_eq, if_pos rfl]
        simp [h (roleOf x)]
      · have : (([x] : List MLora).filter (fun y => roleOf y = r)).length = 0 := by
          simp [List.filter_cons, hr]
        rw [this, h r]
        simp [Ne.symm hr, hr]

/-- `filterRole` on a cons. -/
theorem filterRole_cons (r : String) (x : MLora) (l : List MLora) :
    filterRole r (x :: l)
      = if roleOf x = r then x :: filterRole r l else filterRole r l := by
  by_cases h : roleOf x = r <;> simp [filterRole, List.filter_cons, h]

/-- Within each role, the walk keeps exactly the first `cap − count` entries
of that role, in order. -/
theorem filterRole_applyRoleCapsGo (r : String) (l : List MLora) :
    ∀ counts : String → Nat,
    filterRole r (applyRoleCapsGo counts l)
      = (filterRole r l).take (capOf r - counts r) := by
  induction l with
  | nil => intro counts; simp [filterRole, applyRoleCapsGo]
  | cons x rest ih =>
    intro counts
    by_cases hc : counts (roleOf x) ≥ capOf (roleOf x)
    · rw [applyRoleCapsGo, if_pos hc, ih counts, filterRole_cons]
      by_cases hr : roleOf x = r
      · subst hr
        have h0 : capOf (roleOf x) - counts (roleOf x) = 0 := by omega
        rw [if_pos rfl, h0]
        simp
      · rw [if_neg hr]
    · rw [applyRoleCapsGo, if_neg hc, filterRole_cons, filterRole_cons]
      by_cases hr : roleOf x = r
      · subst hr
        obtain ⟨k, hk⟩ : ∃ k, capOf (roleOf x) - counts (roleOf x) = k + 1 :=
          ⟨capOf (roleOf x) - counts (roleOf x) - 1, by omega⟩
        have hrec := ih
          (fun q => if q = roleOf x then counts (roleOf x) + 1 else counts q)
        rw [if_pos rfl] at hrec
        have h2 : capOf (roleOf x) - (counts (roleOf x) + 1) = k := by omega
        rw [if_pos rfl, if_pos rfl, hk, List.take_succ_cons, hrec, h2]
      · have hrec := ih
          (fun q => if q = roleOf x then counts (roleOf x) + 1 else counts q)
        rw [if_neg (Ne.symm hr)] at hrec
        rw [if_neg hr, if_neg hr, hrec]

/-- C3 (counterexample).  The claim says a role with no configured cap gets a
very large default cap (effectively uncapped).  In the source, an unlisted
role falls back to `caps.get("misc", 999)`, and `misc` *is* configured with
cap 1: two entries of the unlisted role `scenery` are cut down to one. -/
theorem C3_counterexample :
    apply_role_caps [mkLora "a" "scenery" 1, mkLora "b" "scenery" 2]
      = [mkLora "a" "scenery" 1]
    ∧ capOf "scenery" = 1 := by
  constructor
  · rfl
  · rfl

/-- C3 (amended).  `apply_role_caps` walks the list once keeping an entry
exactly when the running count of already-kept entries of its role is below
the role's cap; consequently at most `capOf r` entries of any role `r`
survive, and within a role exactly the first (hence, on a rank-sorted input,
lowest-rank) entries survive.  The cap of a role not listed in `ROLE_CAPS`
is the `misc` cap (1 in the shipped configuration), not a very large
number — 999 would apply only if `misc` itself were unconfigured. -/
theorem C3_amended (l : List MLora) (r : String) :
    apply_role_caps l = specRoleCapsWalk l
    ∧ filterRole r (apply_role_caps l) = (filterRole r l).take (capOf r)
    ∧ (filterRole r (apply_role_caps l)).length ≤ capOf r
    ∧ (l.Pairwise (fun a b => rankOf a ≤ rankOf b) →
        ∀ x ∈ filterRole r (apply_role_caps l),
        ∀ y ∈ filterRole r l, y ∉ filterRole r (apply_role_caps l) →
        rankOf x ≤ rankOf y) := by
  have hfil : filterRole r (apply_role_caps l) = (filterRole r l).take (capOf r) := by
    rw [apply_role_caps, filterRole_applyRoleCapsGo, Nat.sub_zero]
  refine ⟨applyRoleCapsGo_eq_specGo l [] (fun _ => 0) (by intro r'; rfl), hfil, ?_, ?_⟩
  · rw [hfil, List.length_take]
    omega
  · intro hsort x hx y hy hyn
    rw [hfil] at hx hyn
    have hpair : (filterRole r l).Pairwise (fun a b => rankOf a ≤ rankOf b) :=
      hsort.filter _
    have hy' : y ∈ (filterRole r l).take (capOf r)
        ++ (filterRole r l).drop (capOf r) := by
      rw [List.take_append_drop]; exact hy
    rcases List.mem_append.mp hy' with h | h
    · exact absurd h hyn
    · have hsplit : (filterRole r l).take (capOf r)
          ++ (filterRole r l).drop (capOf r) = filterRole r l :=
        List.take_append_drop _ _
      have hpair2 : ((filterRole r l).take (capOf r)
          ++ (filterRole r l).drop (capOf r)).Pairwise
            (fun a b => rankOf a ≤ rankOf b) := by
        rw [hsplit]; exact hpair
      exact (List.pairwise_append.mp hpair2).2.2 x hx y h

/-- C3 (witness for the amended theorem): three rank-sorted `general`
entries (cap 2) — the walk keeps the first two, and a kept entry's rank is
at most a dropped entry's rank. -/
theorem C3_amended_witness :
    ([mkLora "g1" "general" 1, mkLora "g2" "general" 2,
        mkLora "g3" "general" 3].Pairwise
      (fun a b => rankOf a ≤ rankOf b))
    ∧ rankOf (mkLora "g1" "general" 1) ≤ rankOf (mkLora "g3" "general" 3) := by
  refine ⟨by decide, ?_⟩
  exact (C3_amended
      [mkLora "g1" "general" 1, mkLora "g2" "general" 2,
        mkLora "g3" "general" 3] "general").2.2.2
    (by decide)
    (mkLora "g1" "general" 1) (by decide)
    (mkLora "g3" "general" 3) (by decide) (by decide)

/-! ## C4 — provider-specific pruning -/

/-- C4 (counterexample).  The source drops an entry for a non-primary
provider as soon as its source contains both a colon and an at-sign, even
when the string does not have the `<token>:<token>@<token>` shape: in
`a@b:c` no colon precedes an at-sign, so it matches no decomposition
`t1 ++ ":" ++ t2 ++ "@" ++ t3`, yet the entry is dropped.  (The claim's
companion statement also fails: an HTTP(S) URL containing an `@` is dropped
for the same reason.) -/
theorem C4_counterexample :
    provider_based_lora_url_pruning
        [mkUrlLora ['a', '@', 'b', ':', 'c']] "fal" = []
    ∧ ¬ specInlineSpecShape ['a', '@', 'b', ':', 'c'] := by
  constructor
  · rfl
  · rintro ⟨t1, t2, t3, h1, h2, h3, heq⟩
    have hlen := congrArg List.length heq
    simp only [List.length_append, List.length_cons, List.length_nil] at hlen
    have p1 : 0 < t1.length := List.length_pos.mpr h1
    have p2 : 0 < t2.length := List.length_pos.mpr h2
    have p3 : 0 < t3.length := List.length_pos.mpr h3
    have e1 : t1.length = 1 := by omega
    have e2 : t2.length = 1 := by omega
    have e3 : t3.length = 1 := by omega
    obtain ⟨x, rfl⟩ := List.length_eq_one.mp e1
    obtain ⟨y, rfl⟩ := List.length_eq_one.mp e2
    obtain ⟨z, rfl⟩ := List.length_eq_one.mp e3
    simp only [List.cons_append, List.nil_append, List.cons.injEq] at heq
    exact absurd heq.2.1 (by decide)

/-- C4 (amended).  For a non-primary provider, the pruning step drops exactly
the entries whose (trimmed) source contains at least one colon and at least
one at-sign — the source's loose test for an inline spec — keeping all other
entries unchanged in their original order; for the primary provider
(`runware`) nothing is dropped; and any entry whose source contains no
at-sign (in particular a plain HTTP(S) URL without userinfo or `@` in the
path) always survives. -/
theorem C4_amended (l : List MLora) (provider : String) :
    provider_based_lora_url_pruning l provider
      = l.filter (fun m => !pruneDropB provider m)
    ∧ provider_based_lora_url_pruning l "runware" = l
    ∧ (∀ m ∈ l, (pruneSrc m).contains '@' = false →
        m ∈ provider_based_lora_url_pruning l provider) := by
  have hfilter : ∀ (l' : List MLora),
      provider_based_lora_url_pruning l' provider
        = l'.filter (fun m => !pruneDropB provider m) := by
    intro l'
    induction l' with
    | nil => rfl
    | cons x rest ih =>
      rw [provider_based_lora_url_pruning]
      by_cases hd : (pruneSrc x).contains ':' ∧ (pruneSrc x).contains '@'
          ∧ provider ≠ "runware"
      · rw [if_pos hd, ih, List.filter_cons]
        have : (!pruneDropB provider x) = false := by
          simp only [pruneDropB, Bool.not_eq_false', Bool.and_eq_true,
            bne_iff_ne]
          exact ⟨⟨hd.1, hd.2.1⟩, hd.2.2⟩
        rw [this, if_neg (by simp)]
      · rw [if_neg hd, ih, List.filter_cons]
        have : (!pruneDropB provider x) = true := by
          simp only [pruneDropB, Bool.not_eq_true', Bool.and_eq_false_iff]
          by_cases h1 : (pruneSrc x).contains ':'
          · by_cases h2 : (pruneSrc x).contains '@'
            · right
              simp only [bne_eq_false_iff_eq]
              by_contra hne
              exact hd ⟨h1, h2, hne⟩
            · left; right; exact Bool.eq_false_iff.mpr h2
          · left; left; exact Bool.eq_false_iff.mpr h1
        rw [this, if_pos rfl]
  have hrun : provider_based_lora_url_pruning l "runware" = l := by
    induction l with
    | nil => rfl
    | cons x rest ih =>
      rw [provider_based_lora_url_pruning,
        if_neg (fun h => h.2.2 rfl), ih]
  refine ⟨hfilter l, hrun, ?_⟩
  intro m hm hat
  rw [hfilter l]
  apply List.mem_filter.mpr
  refine ⟨hm, ?_⟩
  simp only [pruneDropB, hat, Bool.and_false, Bool.false_and,
    Bool.not_false]

/-- C4 (witness for the amended theorem): an ordinary HTTPS URL without an
at-sign is kept by the pruning step for a fallback provider. -/
theorem C4_amended_witness :
    (pruneSrc (mkUrlLora sampleUrl)).contains '@' = false
    ∧ mkUrlLora sampleUrl
        ∈ provider_based_lora_url_pruning [mkUrlLora sampleUrl] "fal" := by
  refine ⟨by decide, ?_⟩
  exact (C4_amended [mkUrlLora sampleUrl] "fal").2.2
    (mkUrlLora sampleUrl) (by decide) (by decide)

/-! ## C6 — extractor search priority -/

/-- Annotated lookup agrees with plain field lookup plus extraction. -/
theorem lookupAnn_annotateFields (k : String) (fs : List (String × Jx)) :
    lookupAnn k (annotateFields fs)
      = (lookupField k fs).map (fun v => (v, extract_image_candidate v)) := by
  induction fs with
  | nil => rfl
  | cons kv rest ih =>
    obtain ⟨k', v⟩ := kv
    by_cases h : k' = k <;>
      simp [annotateFields, lookupAnn, lookupField, h, ih]

/-- The direct-key loop is the first-hit scan over the key list. -/
theorem phaseDirect_eq (keys : List String) (fs : List (String × Jx)) :
    phaseDirect keys (annotateFields fs)
      = firstSome (keys.map (fun k =>
          match lookupField k fs with
          | some v => if truthy v then extract_image_candidate v else none
          | none => none)) := by
  induction keys with
  | nil => rfl
  | cons k ks ih =>
    rw [phaseDirect, lookupAnn_annotateFields, List.map_cons]
    cases hf : lookupField k fs with
    | none => simp only [Option.map_none', firstSome]; exact ih
    | some v =>
      simp only [Option.map_some']
      cases ht : truthy v with
      | false => simp only [ht, Bool.false_eq_true, if_false, firstSome]; exact ih
      | true =>
        simp only [ht, if_true]
        cases hc : extract_image_candidate v with
        | none => simp only [firstSome]; exact ih
        | some c => simp only [firstSome]

/-- The container-key loop is the first-hit scan over the key list. -/
theorem phaseContainer_eq (keys : List String) (fs : List (String × Jx)) :
    phaseContainer keys (annotateFields fs)
      = firstSome (keys.map (fun k =>
          match lookupField k fs with
          | some v => if notNull v then extract_image_candidate v else none
          | none => none)) := by
  induction keys with
  | nil => rfl
  | cons k ks ih =>
    rw [phaseContainer, lookupAnn_annotateFields, List.map_cons]
    cases hf : lookupField k fs with
    | none => simp only [Option.map_none', firstSome]; exact ih
    | some v =>
      simp only [Option.map_some']
      cases ht : notNull v with
      | false => simp only [ht, Bool.false_eq_true, if_false, firstSome]; exact ih
      | true =>
        simp only [ht, if_true]
        cases hc : extract_image_candidate v with
        | none => simp only [firstSome]; exact ih
        | some c => simp only [firstSome]

/-- The values loop is the first-hit scan over all values in insertion
order. -/
theorem phaseAll_eq (fs : List (String × Jx)) :
    phaseAll (annotateFields fs)
      = firstSome (fs.map (fun kv => extract_image_candidate kv.2)) := by
  induction fs with
  | nil => rfl
  | cons kv rest ih =>
    obtain ⟨k, v⟩ := kv
    cases hc : extract_image_candidate v with
    | none => simp only [annotateFields, phaseAll, List.map_cons, hc, firstSome]; exact ih
    | some c => simp only [annotateFields, phaseAll, List.map_cons, hc, firstSome]

/-- The list loop is the first-hit scan over the elements. -/
theorem extractFromList_eq (xs : List Jx) :
    extractFromList xs = firstSome (xs.map extract_image_candidate) := by
  induction xs with
  | nil => rfl
  | cons x rest ih =>
    cases hc : extract_image_candidate x with
    | none => simp only [extractFromList, List.map_cons, hc, firstSome]; exact ih
    | some c => simp only [extractFromList, List.map_cons, hc, firstSome]

/-- C6.  The extractor follows the declared search priority: strings and
bytes are returned as themselves; arrays are scanned in order with the first
non-null candidate winning; an empty object yields no candidate; and on an
object the direct-value keys `imageURL, image_url, imageUrl, image, url,
b64_json, base64` are tried first in exactly that order (a present key is
used when its value is truthy), then the container keys `data, output,
outputs, images, result, results` are recursed into (when not `None`), then
every value is scanned in insertion order, the first candidate winning —
the search the specification describes (`specObjSearch`). -/
theorem C6_extractor_priority (s : List Char) (b : List Nat)
    (xs : List Jx) (fs : List (String × Jx)) :
    extract_image_candidate (.str s) = some (.str s)
    ∧ extract_image_candidate (.bytes b) = some (.bytes b)
    ∧ extract_image_candidate (.obj []) = none
    ∧ extract_image_candidate (.arr xs)
        = firstSome (xs.map extract_image_candidate)
    ∧ extract_image_candidate (.obj fs) = specObjSearch fs := by
  refine ⟨rfl, rfl, rfl, ?_, ?_⟩
  · rw [extract_image_candidate]
    exact extractFromList_eq xs
  · rw [extract_image_candidate, specObjSearch]
    rw [phaseDirect_eq, phaseContainer_eq, phaseAll_eq]

/-! ## C5 — non-2xx downloads fail hard -/

/-- C5.  Whenever the extracted candidate is an HTTP(S) URL and the GET for
it returns a non-2xx status, resolution fails with the propagated status
error and never yields image bytes — the failed download's body is never
base64-decoded or otherwise returned.  The same holds for the URL-download
tail of the Together client. -/
theorem C5_http_error_hard_failure (payload : Jx)
    (http : List Char → HttpResp) (s url : List Char) :
    (extract_image_candidate payload = some (.str s) →
      (startsWithL ("http://".toList) s ∨ startsWithL ("https://".toList) s) →
      isSuccessStatus (http s).status = false →
      resolve_image_bytes_from_payload payload http
          = .error (.httpStatus (http s).status)
        ∧ ∀ b, resolve_image_bytes_from_payload payload http ≠ .ok b)
    ∧ (isSuccessStatus (http url).status = false →
        together_download_image url http
          = .error (.httpStatus (http url).status)) := by
  constructor
  · intro hc hurl hstat
    have h : resolve_image_bytes_from_payload payload http
        = .error (.httpStatus (http s).status) := by
      simp only [resolve_image_bytes_from_payload, hc, if_pos hurl, hstat,
        Bool.false_eq_true, if_false]
    exact ⟨h, fun b hb => by rw [h] at hb; exact Except.noConfusion hb⟩
  · intro hstat
    simp only [together_download_image, hstat, Bool.false_eq_true, if_false]

/-- C5 (witness): a payload whose only candidate is a URL answered with
HTTP 403 and an HTML body resolves to the propagated status error. -/
theorem C5_http_error_hard_failure_witness :
    resolve_image_bytes_from_payload
        (.obj [("url", .str sampleUrl)])
        (fun _ => ⟨403, [0x3c, 0x68, 0x74, 0x6d, 0x6c, 0x3e]⟩)
      = .error (.httpStatus 403) := by
  exact ((C5_http_error_hard_failure (.obj [("url", .str sampleUrl)])
      (fun _ => ⟨403, [0x3c, 0x68, 0x74, 0x6d, 0x6c, 0x3e]⟩)
      sampleUrl sampleUrl).1
    (by decide) (by decide) (by decide)).1

/-! ## C2 / C8 — orchestrator lemmas -/

/-- The providers actually attempted form an initial segment of the list the
loop was given. -/
theorem tryProviders_trace_initial (gen : GenOracle) (matched : List MLora)
    (params : GenParams) :
    ∀ (ps : List String) (le : Option String),
    ∃ rest, ps = ((tryProviders gen matched params ps le).1.map
      (fun a => a.provider)) ++ rest := by
  intro ps
  induction ps with
  | nil => intro _; exact ⟨[], rfl⟩
  | cons p rest ih =>
    intro le
    cases h : attemptOutcome gen matched params p with
    | ok bytes =>
      refine ⟨rest, ?_⟩
      simp [tryProviders, h]
    | error e =>
      obtain ⟨r2, hr2⟩ := ih (some e)
      refine ⟨r2, ?_⟩
      simp only [tryProviders, h, List.map_cons, List.cons_append]
      exact congrArg (p :: ·) hr2

/-- Every attempt in the trace carries the shared params. -/
theorem tryProviders_trace_params (gen : GenOracle) (matched : List MLora)
    (params : GenParams) :
    ∀ (ps : List String) (le : Option String),
    ∀ a ∈ (tryProviders gen matched params ps le).1, a.params = params := by
  intro ps
  induction ps with
  | nil => intro _ a ha; exact absurd ha (List.not_mem_nil a)
  | cons p rest ih =>
    intro le a ha
    cases h : attemptOutcome gen matched params p with
    | ok bytes =>
      simp only [tryProviders, h, List.mem_singleton] at ha
      rw [ha]
    | error e =>
      simp only [tryProviders, h, List.mem_cons] at ha
      rcases ha with rfl | ha
      · rfl
      · exact ih (some e) a ha

/-- A successful outcome is the short-circuit return of the first provider
whose attempt passed validation, with provenance taken from that provider. -/
theorem tryProviders_ok_char (gen : GenOracle) (matched : List MLora)
    (params : GenParams) :
    ∀ (ps : List String) (le : Option String) (info : SuccessInfo),
    (tryProviders gen matched params ps le).2 = .ok info →
    ∃ pre p post bytes, ps = pre ++ p :: post
      ∧ (∀ q ∈ pre, ∃ e, attemptOutcome gen matched params q = .error e)
      ∧ attemptOutcome gen matched params p = .ok bytes
      ∧ info = ⟨p, (loraListFor matched p).length, params.seed, bytes⟩ := by
  intro ps
  induction ps with
  | nil =>
    intro le info h
    simp only [tryProviders] at h
    exact absurd h (by simp)
  | cons p rest ih =>
    intro le info h
    cases ha : attemptOutcome gen matched params p with
    | ok bytes =>
      simp only [tryProviders, ha, Except.ok.injEq] at h
      exact ⟨[], p, rest, bytes, rfl, by intro q hq; exact absurd hq (List.not_mem_nil q),
        ha, h.symm⟩
    | error e =>
      simp only [tryProviders, ha] at h
      obtain ⟨pre, p', post, bytes, hsplit, hpre, hp', hinfo⟩ := ih (some e) info h
      refine ⟨p :: pre, p', post, bytes, by rw [hsplit, List.cons_append], ?_, hp', hinfo⟩
      intro q hq
      rcases List.mem_cons.mp hq with rfl | hq2
      · exact ⟨e, ha⟩
      · exact hpre q hq2

/-- When every provider in the list fails, the loop attempts all of them in
order and raises the aggregate message carrying the last provider's error. -/
theorem tryProviders_all_fail (gen : GenOracle) (matched : List MLora)
    (params : GenParams) :
    ∀ (ps : List String) (le : Option String),
    (∀ q ∈ ps, ∃ e, attemptOutcome gen matched params q = .error e) →
    ((tryProviders gen matched params ps le).1.map (fun a => a.provider) = ps
      ∧ (tryProviders gen matched params ps le).2
          = .error ("All providers failed. Last error: "
              ++ match ps.getLast? with
                 | some q => errTextOf (attemptOutcome gen matched params q)
                 | none => le.getD "None")) := by
  intro ps
  induction ps with
  | nil => intro le _; exact ⟨rfl, rfl⟩
  | cons p rest ih =>
    intro le hall
    obtain ⟨e, he⟩ := hall p (List.mem_cons_self p rest)
    have ihr := ih (some e) (fun q hq => hall q (List.mem_cons_of_mem p hq))
    constructor
    · simp only [tryProviders, he, List.map_cons]
      exact congrArg (p :: ·) ihr.1
    · simp only [tryProviders, he]
      rw [ihr.2]
      cases rest with
      | nil =>
        simp only [List.getLast?_singleton, Option.getD_some]
        rw [he]
        rfl
      | cons r rs =>
        rw [List.getLast?_cons_cons]
        cases hgl : (r :: rs).getLast? with
        | none => exact absurd hgl (by simp)
        | some q => rfl

/-- The loop never pronounces total failure while some provider attempt
would have succeeded: an error outcome means every listed provider failed.
-/
theorem tryProviders_error_all (gen : GenOracle) (matched : List MLora)
    (params : GenParams) :
    ∀ (ps : List String) (le : Option String) (msg : String),
    (tryProviders gen matched params ps le).2 = .error msg →
    ∀ q ∈ ps, ∃ e, attemptOutcome gen matched params q = .error e := by
  intro ps
  induction ps with
  | nil => intro le msg _ q hq; exact absurd hq (List.not_mem_nil q)
  | cons p rest ih =>
    intro le msg h q hq
    cases ha : attemptOutcome gen matched params p with
    | ok bytes =>
      simp only [tryProviders, ha] at h
      exact absurd h (by simp)
    | error e =>
      simp only [tryProviders, ha] at h
      rcases List.mem_cons.mp hq with rfl | hq2
      · exact ⟨e, ha⟩
      · exact ih (some e) msg h q hq2

/-- Failing providers before a success are attempted in order and the
success short-circuits. -/
theorem tryProviders_first_success (gen : GenOracle) (matched : List MLora)
    (params : GenParams) :
    ∀ (pre : List String) (p : String) (post : List String)
      (bytes : List Nat) (le : Option String),
    (∀ q ∈ pre, ∃ e, attemptOutcome gen matched params q = .error e) →
    attemptOutcome gen matched params p = .ok bytes →
    ((tryProviders gen matched params (pre ++ p :: post) le).1.map
        (fun a => a.provider) = pre ++ [p]
      ∧ (tryProviders gen matched params (pre ++ p :: post) le).2
          = .ok ⟨p, (loraListFor matched p).length, params.seed, bytes⟩) := by
  intro pre
  induction pre with
  | nil =>
    intro p post bytes le _ hp
    simp only [List.nil_append]
    constructor
    · simp [tryProviders, hp]
    · simp only [tryProviders, hp]
  | cons q pre' ih =>
    intro p post bytes le hpre hp
    obtain ⟨e, he⟩ := hpre q (List.mem_cons_self q pre')
    have ihr := ih p post bytes (some e)
      (fun q' hq' => hpre q' (List.mem_cons_of_mem q hq')) hp
    constructor
    · simp only [List.cons_append, tryProviders, he, List.map_cons]
      exact congrArg (q :: ·) ihr.1
    · simp only [List.cons_append, tryProviders, he]
      exact ihr.2

/-! ## C2 — the fallback orchestrator -/

/-- C2.  The orchestrator attempts providers strictly in the fixed order,
each at most once: the attempted providers are an initial, duplicate-free
segment of the configured order; the first attempt whose result passes
magic-number validation short-circuits the loop and is returned with
provenance (which provider, how many LoRAs); the endpoint raises its server
error only when every provider has failed, with a message carrying the last
observed provider error. -/
theorem C2_orchestrator (gen : GenOracle) (matched : List MLora)
    (params : GenParams) :
    (∃ rest, providerOrder
        = ((tryProviders gen matched params providerOrder none).1.map
            (fun a => a.provider)) ++ rest)
    ∧ ((tryProviders gen matched params providerOrder none).1.map
        (fun a => a.provider)).Nodup
    ∧ (∀ pre p post bytes, providerOrder = pre ++ p :: post →
        (∀ q ∈ pre, ∃ e, attemptOutcome gen matched params q = .error e) →
        attemptOutcome gen matched params p = .ok bytes →
        ((tryProviders gen matched params providerOrder none).1.map
            (fun a => a.provider) = pre ++ [p]
          ∧ (tryProviders gen matched params providerOrder none).2
              = .ok ⟨p, (loraListFor matched p).length, params.seed, bytes⟩))
    ∧ ((∀ q ∈ providerOrder, ∃ e,
          attemptOutcome gen matched params q = .error e) →
        (tryProviders gen matched params providerOrder none).2
          = .error ("All providers failed. Last error: "
              ++ errTextOf (attemptOutcome gen matched params "pixeldojo")))
    ∧ (∀ msg, (tryProviders gen matched params providerOrder none).2
          = .error msg →
        ∀ q ∈ providerOrder, ∃ e,
          attemptOutcome gen matched params q = .error e) := by
  obtain ⟨rest, hrest⟩ :=
    tryProviders_trace_initial gen matched params providerOrder none
  refine ⟨⟨rest, hrest⟩, ?_, ?_, ?_, ?_⟩
  · have hnodup : providerOrder.Nodup := by decide
    rw [hrest] at hnodup
    exact hnodup.of_append_left
  · intro pre p post bytes hsplit hpre hp
    rw [hsplit]
    exact tryProviders_first_success gen matched params pre p post bytes none
      hpre hp
  · intro hall
    exact (tryProviders_all_fail gen matched params providerOrder none hall).2
  · intro msg hmsg
    exact tryProviders_error_all gen matched params providerOrder none msg hmsg

/-- C2 (witness): with the first two providers failing and the third
returning a valid PNG, the orchestrator attempts exactly
runware, hfzerogpu, wavespeed and succeeds with wavespeed provenance. -/
theorem C2_orchestrator_witness :
    ((tryProviders sampleGen [] sampleParams providerOrder none).1.map
        (fun a => a.provider) = ["runware", "hfzerogpu", "wavespeed"]
      ∧ (tryProviders sampleGen [] sampleParams providerOrder none).2
          = .ok ⟨"wavespeed", 0, 42, [0x89, 0x50, 0x4e, 0x47, 13, 10, 26, 10]⟩) := by
  have h := (C2_orchestrator sampleGen [] sampleParams).2.2.1
    ["runware", "hfzerogpu"] "wavespeed" ["fal", "together", "pixeldojo"]
    [0x89, 0x50, 0x4e, 0x47, 13, 10, 26, 10]
    rfl
    (by
      intro q hq
      rcases List.mem_cons.mp hq with rfl | hq2
      · exact ⟨"fail runware", rfl⟩
      rcases List.mem_cons.mp hq2 with rfl | hq3
      · exact ⟨"fail hfzerogpu", rfl⟩
      · exact absurd hq3 (List.not_mem_nil q))
    rfl
  exact ⟨h.1, h.2⟩

/-! ## C8 — one seed per request, shared across attempts -/

/-- C8.  With `seed = -1` the single random draw taken before the first
dispatch becomes the seed; otherwise the supplied seed is used unchanged;
in both cases that seed is embedded in the params passed to every provider
attempt of the request and in the reported parameters of a successful
response (for `-1`, a non-negative draw yields a non-negative seed). -/
theorem C8_seed_once_shared (gen : GenOracle) (matched : List MLora)
    (steps : Int) (cfg : Rat) (w h : Int) (reqSeed randDraw : Int) :
    (reqSeed ≠ -1 → seedUsedOf reqSeed randDraw = reqSeed)
    ∧ (reqSeed = -1 → seedUsedOf reqSeed randDraw = randDraw)
    ∧ (reqSeed = -1 → 0 ≤ randDraw → 0 ≤ seedUsedOf reqSeed randDraw)
    ∧ (∀ a ∈ (txt2imgGenerate gen matched steps cfg w h reqSeed randDraw).1,
        a.params = ⟨steps, cfg, w, h, seedUsedOf reqSeed randDraw⟩)
    ∧ (∀ info,
        (txt2imgGenerate gen matched steps cfg w h reqSeed randDraw).2
          = .ok info →
        info.seed = seedUsedOf reqSeed randDraw) := by
  refine ⟨?_, ?_, ?_, ?_, ?_⟩
  · intro hne; rw [seedUsedOf, if_pos hne]
  · intro heq; rw [seedUsedOf, if_neg (by rw [heq]; exact fun hc => hc rfl)]
  · intro heq hnn
    rw [seedUsedOf, if_neg (by rw [heq]; exact fun hc => hc rfl)]
    exact hnn
  · intro a ha
    exact tryProviders_trace_params gen matched
      ⟨steps, cfg, w, h, seedUsedOf reqSeed randDraw⟩ providerOrder none a ha
  · intro info hinfo
    obtain ⟨pre, p, post, bytes, _, _, _, heq⟩ :=
      tryProviders_ok_char gen matched
        ⟨steps, cfg, w, h, seedUsedOf reqSeed randDraw⟩ providerOrder none
        info hinfo
    rw [heq]

/-- C8 (witness): a request with `seed = -1` and random draw 42 uses seed 42,
and a successful response reports it. -/
theorem C8_seed_once_shared_witness :
    seedUsedOf (-1) 42 = 42
    ∧ 0 ≤ seedUsedOf (-1) 42
    ∧ (∀ info,
        (txt2imgGenerate sampleGen [] 40 4 1024 1024 (-1) 42).2 = .ok info →
        info.seed = seedUsedOf (-1) 42) := by
  have h := C8_seed_once_shared sampleGen [] 40 4 1024 1024 (-1) 42
  exact ⟨h.2.1 rfl, h.2.2.1 rfl (by norm_num), h.2.2.2.2⟩

/-! ## C7 / C9 — resolution-cache lemmas -/

/-- A positive `startsWithL` test pins down the prefix of the string. -/
theorem startsWithL_take (p : List Char) :
    ∀ s : List Char, startsWithL p s = true → s.take p.length = p := by
  induction p with
  | nil => intro s _; rfl
  | cons a as ih =>
    intro s h
    cases s with
    | nil => exact absurd h (by rw [startsWithL]; exact Bool.false_ne_true)
    | cons c cs =>
      rw [startsWithL, Bool.and_eq_true] at h
      obtain ⟨h1, h2⟩ := h
      have hac : a = c := eq_of_beq h1
      rw [List.length_cons, List.take_succ_cons, ih cs h2, hac]

/-- Two prefixes of one string agree on their overlap. -/
theorem prefix_clash (p q u : List Char) (hp : startsWithL p u = true)
    (hq : startsWithL q u = true) : p.take q.length = q.take p.length := by
  have h1 := startsWithL_take p u hp
  have h2 := startsWithL_take q u hq
  calc p.take q.length = (u.take p.length).take q.length := by rw [h1]
    _ = u.take (min q.length p.length) := List.take_take _ _ _
    _ = u.take (min p.length q.length) := by rw [Nat.min_comm]
    _ = (u.take q.length).take p.length := (List.take_take _ _ _).symm
    _ = q.take p.length := by rw [h2]

/-- A string that starts with `http://` or `https://` is non-empty. -/
theorem ne_nil_of_http (u : List Char)
    (h : startsWithL ("http://".toList) u = true
      ∨ startsWithL ("https://".toList) u = true) : u ≠ [] := by
  intro he
  subst he
  rcases h with h | h <;> exact absurd h (by decide)

/-- A string that starts with `http://` or `https://` matches none of the
provider-prefix pass-throughs of branch 1. -/
theorem hasProviderPrefixStr_false_of_http (u : List Char)
    (h : startsWithL ("http://".toList) u = true
      ∨ startsWithL ("https://".toList) u = true) :
    hasProviderPrefixStr u = false := by
  rw [hasProviderPrefixStr]
  have h1 : startsWithL ("runware:".toList) u = false := by
    cases hx : startsWithL ("runware:".toList) u with
    | false => rfl
    | true =>
      rcases h with hh | hh <;>
        exact absurd (prefix_clash _ _ u hx hh) (by decide)
  have h2 : startsWithL ("civitai:".toList) u = false := by
    cases hx : startsWithL ("civitai:".toList) u with
    | false => rfl
    | true =>
      rcases h with hh | hh <;>
        exact absurd (prefix_clash _ _ u hx hh) (by decide)
  have h3 : startsWithL ("hfk:".toList) u = false := by
    cases hx : startsWithL ("hfk:".toList) u with
    | false => rfl
    | true =>
      rcases h with hh | hh <;>
        exact absurd (prefix_clash _ _ u hx hh) (by decide)
  have h4 : startsWithL ("deathwalker:".toList) u = false := by
    cases hx : startsWithL ("deathwalker:".toList) u with
    | false => rfl
    | true =>
      rcases h with hh | hh <;>
        exact absurd (prefix_clash _ _ u hx hh) (by decide)
  rw [h1, h2, h3, h4]
  rfl

/-- Lookup after a replacing map-update finds the new value. -/
theorem lookupA_map_replace {α β : Type} [BEq α] [LawfulBEq α]
    (m : List (α × β)) (k : α) (v : β)
    (h : (lookupA m k).isSome) :
    lookupA (m.map (fun p => if p.1 == k then (k, v) else p)) k = some v := by
  induction m with
  | nil => simp [lookupA] at h
  | cons kv rest ih =>
    obtain ⟨k', v'⟩ := kv
    rw [List.map_cons]
    cases hbe : k' == k with
    | true =>
      simp only [hbe, if_true]
      rw [lookupA, if_pos (by simp)]
    | false =>
      simp only [hbe, Bool.false_eq_true, if_false]
      rw [lookupA, if_neg (by rw [hbe]; exact Bool.false_ne_true)]
      apply ih
      rw [lookupA, if_neg (by rw [hbe]; exact Bool.false_ne_true)] at h
      exact h

/-- Lookup after appending a fresh binding finds it. -/
theorem lookupA_append_new {α β : Type} [BEq α] [LawfulBEq α]
    (m : List (α × β)) (k : α) (v : β)
    (h : lookupA m k = none) :
    lookupA (m ++ [(k, v)]) k = some v := by
  induction m with
  | nil => rw [List.nil_append, lookupA, if_pos (by simp)]
  | cons kv rest ih =>
    obtain ⟨k', v'⟩ := kv
    rw [lookupA] at h
    by_cases hbe : (k' == k) = true
    · rw [if_pos hbe] at h; exact absurd h (by simp)
    · rw [if_neg hbe] at h
      rw [List.cons_append, lookupA,
        if_neg hbe]
      exact ih h

/-- `mapping[key] = value` makes the key resolvable to the new value. -/
theorem lookupA_insertA_self {α β : Type} [BEq α] [LawfulBEq α]
    (m : List (α × β)) (k : α) (v : β) :
    lookupA (insertA m k v) k = some v := by
  rw [insertA]
  by_cases h : (lookupA m k).isSome
  · rw [if_pos h]; exact lookupA_map_replace m k v h
  · rw [if_neg h]
    exact lookupA_append_new m k v (Option.not_isSome_iff_eq_none.mp h)

/-- One loop step on a clean HTTP(S) source: branch 3 of the source — cache
hit reuses the stored id, cache miss uploads and records, upload failure
skips the entry (the upload call still happened). -/
theorem resolveGo_cons_http (upload : UploadOracle)
    (mapping : List (List Char × List Char)) (u : List Char) (w : Rat)
    (rest : List RLEntry)
    (hstrip : pyStrip u = u)
    (hhttp : startsWithL ("http://".toList) u = true
      ∨ startsWithL ("https://".toList) u = true)
    (hat : u.contains '@' = false) :
    resolveGo upload mapping (httpEntry u w :: rest)
      = match lookupA mapping u with
        | some rid =>
          ⟨(rid, w) :: (resolveGo upload mapping rest).resolved,
            (resolveGo upload mapping rest).mapping,
            (resolveGo upload mapping rest).updated,
            (resolveGo upload mapping rest).uploads⟩
        | none =>
          match upload u with
          | .ok rid =>
            ⟨(rid, w) :: (resolveGo upload (insertA mapping u rid) rest).resolved,
              (resolveGo upload (insertA mapping u rid) rest).mapping,
              true,
              u :: (resolveGo upload (insertA mapping u rid) rest).uploads⟩
          | .error _ =>
            ⟨(resolveGo upload mapping rest).resolved,
              (resolveGo upload mapping rest).mapping,
              (resolveGo upload mapping rest).updated,
              u :: (resolveGo upload mapping rest).uploads⟩ := by
  have hne : u ≠ [] := ne_nil_of_http u hhttp
  have hpre : hasProviderPrefixStr u = false :=
    hasProviderPrefixStr_false_of_http u hhttp
  have hpick : pickSrc ⟨some u, none, none, some w⟩ = some u := by
    rw [pickSrc]
    simp [pyOrStr, hne]
  rw [resolveGo]
  simp only [httpEntry, hpick, hstrip, Option.getD_some, hpre,
    Bool.false_eq_true, if_false]
  rw [if_neg (fun hcc => Bool.false_ne_true (by rw [← hat]; exact hcc.2)),
    if_pos hhttp]
  cases hl : lookupA mapping u with
  | some rid => simp
  | none =>
    cases hu : upload u with
    | ok rid => simp
    | error msg => simp

/-- C7.  Resolving the same clean HTTP(S) source URL twice through the cache
— twice within one call, and again in a later call over the persisted
mapping — yields the same remote identifier each time and triggers exactly
one upload: the first resolution uploads and records the mapping (which is
then persisted), every later resolution reuses the stored identifier without
uploading. -/
theorem C7_cache_idempotent (u rid : List Char) (w : Rat)
    (mapping : List (List Char × List Char)) (upload : UploadOracle)
    (hstrip : pyStrip u = u)
    (hhttp : startsWithL ("http://".toList) u = true
      ∨ startsWithL ("https://".toList) u = true)
    (hat : u.contains '@' = false)
    (hmiss : lookupA mapping u = none)
    (hok : upload u = .ok rid) :
    ((resolveGo upload mapping [httpEntry u w, httpEntry u w]).resolved
        = [(rid, w), (rid, w)]
      ∧ (resolveGo upload mapping [httpEntry u w, httpEntry u w]).uploads = [u]
      ∧ lookupA
          (resolveGo upload mapping [httpEntry u w, httpEntry u w]).mapping u
          = some rid)
    ∧ (resolve_runware_loras [httpEntry u w, httpEntry u w] mapping upload).2
        = [(resolveGo upload mapping [httpEntry u w, httpEntry u w]).mapping]
    ∧ ((resolveGo upload
          (resolveGo upload mapping [httpEntry u w, httpEntry u w]).mapping
          [httpEntry u w]).resolved = [(rid, w)]
      ∧ (resolveGo upload
          (resolveGo upload mapping [httpEntry u w, httpEntry u w]).mapping
          [httpEntry u w]).uploads = []) := by
  have hlook : lookupA (insertA mapping u rid) u = some rid :=
    lookupA_insertA_self mapping u rid
  have h2 : resolveGo upload (insertA mapping u rid) [httpEntry u w]
      = ⟨[(rid, w)], insertA mapping u rid, false, []⟩ := by
    rw [resolveGo_cons_http upload (insertA mapping u rid) u w []
      hstrip hhttp hat]
    simp only [hlook]
    rfl
  have h1 : resolveGo upload mapping [httpEntry u w, httpEntry u w]
      = ⟨[(rid, w), (rid, w)], insertA mapping u rid, true, [u]⟩ := by
    rw [resolveGo_cons_http upload mapping u w [httpEntry u w]
      hstrip hhttp hat]
    simp only [hmiss, hok, h2]
  have h3 : resolveGo upload (insertA mapping u rid) [httpEntry u w]
      = ⟨[(rid, w)], insertA mapping u rid, false, []⟩ := h2
  refine ⟨⟨?_, ?_, ?_⟩, ?_, ?_, ?_⟩
  · rw [h1]
  · rw [h1]
  · rw [h1]; exact hlook
  · rw [resolve_runware_loras, h1]; rfl
  · rw [h1, h3]
  · rw [h1, h3]

/-- C7 (witness): a concrete URL resolved twice produces one upload and the
same identifier both times. -/
theorem C7_cache_idempotent_witness :
    (resolveGo sampleUpload []
        [httpEntry sampleUrl 1, httpEntry sampleUrl 1]).uploads = [sampleUrl]
    ∧ (resolveGo sampleUpload []
        [httpEntry sampleUrl 1, httpEntry sampleUrl 1]).resolved
      = [(sampleAir, 1), (sampleAir, 1)] := by
  have h := C7_cache_idempotent sampleUrl sampleAir 1 [] sampleUpload
    (by decide) (by decide) (by decide) rfl rfl
  exact ⟨h.1.2.1, h.1.1⟩

/-- The `updated` flag is set exactly when some upload call during the walk
succeeded. -/
theorem resolveGo_updated_iff (upload : UploadOracle) :
    ∀ (loras : List RLEntry) (mapping : List (List Char × List Char)),
    ((resolveGo upload mapping loras).updated = true ↔
      ∃ u ∈ (resolveGo upload mapping loras).uploads,
        ∃ rid, upload u = .ok rid) := by
  intro loras
  induction loras with
  | nil => intro mapping; simp [resolveGo]
  | cons e rest ih =>
    intro mapping
    have hpass : ∀ (m2 : List (List Char × List Char)) (extraUp : List (List Char)),
        (∀ u ∈ extraUp, ∀ rid, upload u ≠ .ok rid) →
        (((resolveGo upload m2 rest).updated = true ↔
            ∃ u ∈ extraUp ++ (resolveGo upload m2 rest).uploads,
              ∃ rid, upload u = .ok rid)) := by
      intro m2 extraUp hex
      constructor
      · intro h
        obtain ⟨u', hm, rid, hok⟩ := (ih m2).mp h
        exact ⟨u', List.mem_append_right _ hm, rid, hok⟩
      · rintro ⟨u', hm, rid, hok⟩
        rcases List.mem_append.mp hm with h2 | h2
        · exact absurd hok (hex u' h2 rid)
        · exact (ih m2).mpr ⟨u', h2, rid, hok⟩
    cases hp : pickSrc e with
    | none =>
      have hstep : resolveGo upload mapping (e :: rest)
          = ⟨(resolveGo upload mapping rest).resolved,
              (resolveGo upload mapping rest).mapping,
              (resolveGo upload mapping rest).updated,
              (resolveGo upload mapping rest).uploads⟩ := by
        rw [resolveGo]; simp [hp]
      rw [hstep]
      simpa using hpass mapping [] (by intro u hu; exact absurd hu (List.not_mem_nil u))
    | some s0 =>
      by_cases hpre : hasProviderPrefixStr (pyStrip s0) = true
      · have hstep : resolveGo upload mapping (e :: rest)
            = ⟨(pyStrip s0, e.weight.getD 1)
                  :: (resolveGo upload mapping rest).resolved,
                (resolveGo upload mapping rest).mapping,
                (resolveGo upload mapping rest).updated,
                (resolveGo upload mapping rest).uploads⟩ := by
          rw [resolveGo]; simp [hp, hpre]
        rw [hstep]
        simpa using hpass mapping []
          (by intro u hu; exact absurd hu (List.not_mem_nil u))
      · by_cases hcc : (pyStrip s0).contains ':' ∧ (pyStrip s0).contains '@'
        · have hstep : resolveGo upload mapping (e :: rest)
              = ⟨(pyStrip s0, e.weight.getD 1)
                    :: (resolveGo upload mapping rest).resolved,
                  (resolveGo upload mapping rest).mapping,
                  (resolveGo upload mapping rest).updated,
                  (resolveGo upload mapping rest).uploads⟩ := by
            rw [resolveGo]
            simp only [hp]
            rw [if_neg hpre, if_pos hcc]
            simp
          rw [hstep]
          simpa using hpass mapping []
            (by intro u hu; exact absurd hu (List.not_mem_nil u))
        · by_cases hhttp : startsWithL ("http://".toList) (pyStrip s0) = true
              ∨ startsWithL ("https://".toList) (pyStrip s0) = true
          · cases hl : lookupA mapping (pyStrip s0) with
            | some rid =>
              have hstep : resolveGo upload mapping (e :: rest)
                  = ⟨(rid, e.weight.getD 1)
                        :: (resolveGo upload mapping rest).resolved,
                      (resolveGo upload mapping rest).mapping,
                      (resolveGo upload mapping rest).updated,
                      (resolveGo upload mapping rest).uploads⟩ := by
                rw [resolveGo]
                simp only [hp]
                rw [if_neg hpre, if_neg hcc, if_pos hhttp]
                simp [hl]
              rw [hstep]
              simpa using hpass mapping []
                (by intro u hu; exact absurd hu (List.not_mem_nil u))
            | none =>
              cases hu : upload (pyStrip s0) with
              | ok rid =>
                have hstep : resolveGo upload mapping (e :: rest)
                    = ⟨(rid, e.weight.getD 1)
                          :: (resolveGo upload
                              (insertA mapping (pyStrip s0) rid) rest).resolved,
                        (resolveGo upload
                            (insertA mapping (pyStrip s0) rid) rest).mapping,
                        true,
                        pyStrip s0 :: (resolveGo upload
                            (insertA mapping (pyStrip s0) rid) rest).uploads⟩ := by
                  rw [resolveGo]
                  simp only [hp]
                  rw [if_neg hpre, if_neg hcc, if_pos hhttp]
                  simp [hl, hu]
                rw [hstep]
                constructor
                · intro _
                  exact ⟨pyStrip s0, List.mem_cons_self _ _, rid, hu⟩
                · intro _; rfl
              | error msg =>
                have hstep : resolveGo upload mapping (e :: rest)
                    = ⟨(resolveGo upload mapping rest).resolved,
                        (resolveGo upload mapping rest).mapping,
                        (resolveGo upload mapping rest).updated,
                        pyStrip s0
                          :: (resolveGo upload mapping rest).uploads⟩ := by
                  rw [resolveGo]
                  simp only [hp]
                  rw [if_neg hpre, if_neg hcc, if_pos hhttp]
                  simp [hl, hu]
                rw [hstep]
                exact hpass mapping [pyStrip s0]
                  (by
                    intro u hu2 rid
                    rcases List.mem_singleton.mp hu2 with rfl
                    rw [hu]
                    exact fun hc => Except.noConfusion hc)
          · cases hu : upload (pyStrip s0) with
            | ok rid =>
              have hstep : resolveGo upload mapping (e :: rest)
                  = ⟨(rid, e.weight.getD 1)
                        :: (resolveGo upload
                            (insertA mapping (pyStrip s0) rid) rest).resolved,
                      (resolveGo upload
                          (insertA mapping (pyStrip s0) rid) rest).mapping,
                      true,
                      pyStrip s0 :: (resolveGo upload
                          (insertA mapping (pyStrip s0) rid) rest).uploads⟩ := by
                rw [resolveGo]
                simp only [hp]
                rw [if_neg hpre, if_neg hcc, if_neg hhttp]
                simp [hu]
              rw [hstep]
              constructor
              · intro _
                exact ⟨pyStrip s0, List.mem_cons_self _ _, rid, hu⟩
              · intro _; rfl
            | error msg =>
              have hstep : resolveGo upload mapping (e :: rest)
                  = ⟨(resolveGo upload mapping rest).resolved,
                      (resolveGo upload mapping rest).mapping,
                      (resolveGo upload mapping rest).updated,
                      pyStrip s0
                        :: (resolveGo upload mapping rest).uploads⟩ := by
                rw [resolveGo]
                simp only [hp]
                rw [if_neg hpre, if_neg hcc, if_neg hhttp]
                simp [hu]
              rw [hstep]
              exact hpass mapping [pyStrip s0]
                (by
                  intro u hu2 rid
                  rcases List.mem_singleton.mp hu2 with rfl
                  rw [hu]
                  exact fun hc => Except.noConfusion hc)

/-! ## C9 — when the mapping file is written -/

/-- C9 (counterexample).  The claim says the mapping file is written only
when at least one new entry was added.  Branch 4 of the source re-uploads an
ambiguous (non-URL) source without consulting the cache; with the source
already mapped (from an earlier request) and the upload returning the same
deterministic identifier, `updated` is set and the file is rewritten even
though the final mapping equals the initial one — zero new entries. -/
theorem C9_counterexample :
    (resolve_runware_loras [ambEntry] ambMapping ambUpload).2 = [ambMapping]
    ∧ (resolve_runware_loras [ambEntry] ambMapping ambUpload).1.mapping
        = ambMapping := by
  constructor
  · rfl
  · rfl

/-- C9 (amended).  The persisted mapping is rewritten at most once per call,
after every LoRA has been processed (the single write carries the final
mapping), and it is written exactly when at least one upload call succeeded
during the call — each successful upload inserts *or refreshes* a mapping
entry; for URL sources this coincides with "a new entry was added", but a
successful re-upload of an already-mapped ambiguous source also triggers the
write.  With no successful upload, the file is untouched. -/
theorem C9_amended (upload : UploadOracle)
    (mapping : List (List Char × List Char)) (loras : List RLEntry) :
    (resolve_runware_loras loras mapping upload).2.length ≤ 1
    ∧ ((resolve_runware_loras loras mapping upload).2 ≠ [] →
        (resolve_runware_loras loras mapping upload).2
          = [(resolve_runware_loras loras mapping upload).1.mapping])
    ∧ ((resolve_runware_loras loras mapping upload).2 ≠ [] ↔
        ∃ u ∈ (resolve_runware_loras loras mapping upload).1.uploads,
          ∃ rid, upload u = .ok rid) := by
  rw [resolve_runware_loras]
  cases hu : (resolveGo upload mapping loras).updated with
  | true =>
    simp only [hu, if_true]
    refine ⟨by simp, fun _ => by simp, ?_⟩
    exact iff_of_true (by simp)
      ((resolveGo_updated_iff upload loras mapping).mp hu)
  | false =>
    simp only [hu, Bool.false_eq_true, if_false]
    refine ⟨by simp, fun h => absurd rfl h, ?_⟩
    constructor
    · intro h; exact absurd rfl h
    · intro hex
      have := (resolveGo_updated_iff upload loras mapping).mpr hex
      rw [hu] at this
      exact absurd this Bool.false_ne_true

/-- C9 (witness for the amended theorem): on the counterexample input the
single write happens after processing and carries the final mapping. -/
theorem C9_amended_witness :
    (resolve_runware_loras [ambEntry] ambMapping ambUpload).2
      = [(resolve_runware_loras [ambEntry] ambMapping ambUpload).1.mapping] := by
  exact (C9_amended ambUpload ambMapping [ambEntry]).2.1 (by decide)

end FluxBridge
